import Mathlib

/-!
Verification of the FirstJobTech Telegram job-poster pipeline (`main.py`).

The embedding models strings as `List Char`.  Pure helpers of the source
(`is_today`, `extract_job_metadata`, `load_posted_jobs`, `save_posted_job`,
`format_caption`) are translated directly; the effectful parts
(`post_to_telegram`, `fetch_today_jobs`, `main`) are modelled as functions of
an explicit environment (HTTP responses, feed contents, current date, dedup
file contents) that return their results together with a trace of observable
events (HTTP calls, sleeps, dedup writes).
-/

namespace JobPoster

/-- Whitespace characters stripped by Python `str.strip()` (ASCII subset). -/
def pyWs (c : Char) : Bool :=
  c = ' ' || c = '\t' || c = '\n' || c = '\r' || c = '\x0b' || c = '\x0c'

/-- Python `str.strip()`: remove leading and trailing whitespace. -/
def pyStrip (l : List Char) : List Char :=
  ((l.dropWhile pyWs).reverse.dropWhile pyWs).reverse

/-- Prepend a character to the first chunk of a split result. -/
def consHead (c : Char) : List (List Char) → List (List Char)
  | [] => [[c]]
  | h :: t => (c :: h) :: t

/-- Python `str.split(sep)` for a single-character separator. -/
def splitOnChar (sep : Char) : List Char → List (List Char)
  | [] => [[]]
  | c :: cs =>
    if c = sep then [] :: splitOnChar sep cs
    else consHead c (splitOnChar sep cs)

/-- Python list `[-1]` on a split result (split results are never empty). -/
def lastElem : List (List Char) → List Char
  | [] => []
  | [x] => x
  | _ :: xs => lastElem xs

/-- Trailing segment of a string split on `'-'` (specification-side view of
`raw_id.split('-')[-1]`). -/
def lastSeg : List Char → List Char
  | [] => []
  | c :: cs =>
    if c = '-' then lastSeg cs
    else if '-' ∈ cs then lastSeg cs
    else c :: cs

/-- Python `title_text.split(" - ")`: split on the three-character separator,
scanning left to right, non-overlapping. -/
def splitSep : List Char → List (List Char)
  | [] => [[]]
  | [c] => [[c]]
  | [c, d] => [[c, d]]
  | c :: d :: e :: rest =>
    if c = ' ' ∧ d = '-' ∧ e = ' ' then [] :: splitSep rest
    else consHead c (splitSep (d :: e :: rest))

/-- Python `" - " in title_text`. -/
def containsSep : List Char → Bool
  | [] => false
  | c :: cs => (decide (c = ' ' ∧ cs.take 2 = ['-', ' '])) || containsSep cs

/-- Case-insensitive prefix test (the pattern is given in lower case),
modelling `re.IGNORECASE` matching of a literal word. -/
def ciStarts : List Char → List Char → Bool
  | [], _ => true
  | _ :: _, [] => false
  | k :: ks, c :: cs => (c.toLower = k) && ciStarts ks cs

/-- Does one of the five company-suffix keywords of
`re.sub(r'(Recruitment|Hiring|Off Campus|Job|Careers).*', ...)` match here? -/
def kwStarts (l : List Char) : Bool :=
  ciStarts "recruitment".data l || ciStarts "hiring".data l ||
  ciStarts "off campus".data l || ciStarts "job".data l ||
  ciStarts "careers".data l

/-- The substitution `re.sub(r'(Recruitment|Hiring|Off Campus|Job|Careers).*',
'', raw, flags=re.IGNORECASE)`, as a scanner with a skipping mode: at each
leftmost keyword match, the keyword and the rest of the line are deleted
(`.*` does not cross a newline; the skipping mode drops characters until the
next newline, which is kept, and scanning resumes there), otherwise the
character is kept and scanning continues. -/
def subKwAux : Bool → List Char → List Char
  | _, [] => []
  | true, c :: cs =>
    if c = '\n' then c :: subKwAux false cs else subKwAux true cs
  | false, c :: cs =>
    if kwStarts (c :: cs) then subKwAux true cs else c :: subKwAux false cs

/-- The keyword-suffix substitution applied to a raw company string. -/
def subKw (l : List Char) : List Char :=
  subKwAux false l

/-- Company-name extraction of `extract_job_metadata` (lines 59-66 of
`main.py`): when `" - "` occurs, take `split(" - ")[1]`, delete keyword
suffixes, strip; fall back to the sentinel `"Company"`. -/
def extract_company (title_text : List Char) : List Char :=
  if containsSep title_text then
    let parts := splitSep title_text
    if 1 < parts.length then
      let clean_company := pyStrip (subKw (parts.getD 1 []))
      if clean_company = [] then "Company".data else clean_company
    else "Company".data
  else "Company".data

/-- After the literal `src="` of the logo regex: the capture `([^">]+)` is a
nonempty greedy run of characters other than `"` and `>`, which must be
followed by the closing `"` (no shorter run can be, since the character after
any shorter run is itself in the excluded class or not `"`). -/
def tryCapture (r : List Char) : Option (List Char) :=
  let run := r.takeWhile (fun c => c ≠ '"' && c ≠ '>')
  if run ≠ [] ∧ (r.drop run.length).head? = some '"' then some run else none

/-- Backtracking search for the `[^>]+src="([^">]+)"` part of the logo regex
in the region following a `<img`: extend the greedy `[^>]+` gap one character
at a time (preferring the longest gap, as the regex engine does), else stop
and try the literal `src="` followed by the capture. -/
def imgTagSearch : List Char → Option (List Char)
  | [] => none
  | c :: cs =>
    if c = '>' then none
    else
      match imgTagSearch cs with
      | some cap => some cap
      | none => if "src=\"".data.isPrefixOf cs then tryCapture (cs.drop 5) else none

/-- Logo extraction `re.search(r'<img[^>]+src="([^">]+)"', content_html)`
(line 69 of `main.py`): leftmost match wins; at each position try the literal
`<img` followed by the gap-and-capture search. -/
def imgMatch : List Char → Option (List Char)
  | [] => none
  | c :: cs =>
    if "<img".data.isPrefixOf (c :: cs) then
      match imgTagSearch ((c :: cs).drop 4) with
      | some cap => some cap
      | none => imgMatch cs
    else imgMatch cs

/-- Substring occurrence test, used to state the amended logo claim. -/
def containsSub (pat : List Char) : List Char → Bool
  | [] => pat.isPrefixOf []
  | c :: cs => pat.isPrefixOf (c :: cs) || containsSub pat cs

/-- The metadata extractor `extract_job_metadata` (lines 55-73 of `main.py`),
taking the entry's title and content strings and returning the company name
and the optional logo URL. -/
def extract_job_metadata (title_text content_html : List Char) :
    List Char × Option (List Char) :=
  (extract_company title_text, imgMatch content_html)

/-- A calendar date, as produced by Python `datetime.date`. -/
structure PDate where
  year : Nat
  month : Nat
  day : Nat
deriving DecidableEq, Repr

/-- Value of an ASCII digit. -/
def digitVal (c : Char) : Option Nat :=
  if c.isDigit then some (c.toNat - 48) else none

/-- Gregorian leap year, as in Python `datetime`. -/
def isLeap (y : Nat) : Bool :=
  (y % 4 = 0 && ¬ y % 100 = 0) || y % 400 = 0

/-- Days in a month, as validated by the Python `datetime` constructor. -/
def daysInMonth (y m : Nat) : Nat :=
  if m = 2 then (if isLeap y then 29 else 28)
  else if m = 4 ∨ m = 6 ∨ m = 9 ∨ m = 11 then 30
  else 31

/-- CPython `strptime` `%m`: the regex `1[0-2]|0[1-9]|[1-9]`, with the
fallback to the one-digit alternative when the two-digit one fails. -/
def parseMonth : List Char → Option (Nat × List Char)
  | '1' :: c :: rest =>
    if c = '0' ∨ c = '1' ∨ c = '2' then some (10 + (c.toNat - 48), rest)
    else some (1, c :: rest)
  | '0' :: c :: rest =>
    if '1' ≤ c ∧ c ≤ '9' then some (c.toNat - 48, rest) else none
  | c :: rest =>
    if '1' ≤ c ∧ c ≤ '9' then some (c.toNat - 48, rest) else none
  | [] => none

/-- CPython `strptime` `%d`: the regex `3[01]|[12]\d|0[1-9]|[1-9]`. -/
def parseDay : List Char → Option (Nat × List Char)
  | '3' :: c :: rest =>
    if c = '0' ∨ c = '1' then some (30 + (c.toNat - 48), rest)
    else some (3, c :: rest)
  | '1' :: c :: rest =>
    if c.isDigit then some (10 + (c.toNat - 48), rest) else some (1, c :: rest)
  | '2' :: c :: rest =>
    if c.isDigit then some (20 + (c.toNat - 48), rest) else some (2, c :: rest)
  | '0' :: c :: rest =>
    if '1' ≤ c ∧ c ≤ '9' then some (c.toNat - 48, rest) else none
  | c :: rest =>
    if '1' ≤ c ∧ c ≤ '9' then some (c.toNat - 48, rest) else none
  | [] => none

/-- Python `datetime.strptime(date_part, '%Y-%m-%d').date()`: four year
digits, a literal dash, a month, a dash, a day, end of input, and the
constructed date must be valid (`MINYEAR` is 1). -/
def strptimeYMD (l : List Char) : Option PDate :=
  match l with
  | y1 :: y2 :: y3 :: y4 :: '-' :: rest =>
    match digitVal y1, digitVal y2, digitVal y3, digitVal y4 with
    | some a, some b, some c, some d =>
      let y := 1000 * a + 100 * b + 10 * c + d
      match parseMonth rest with
      | some (m, rest2) =>
        match rest2 with
        | '-' :: rest3 =>
          match parseDay rest3 with
          | some (dd, rest4) =>
            if rest4 = [] ∧ 1 ≤ y ∧ dd ≤ daysInMonth y m then
              some ⟨y, m, dd⟩
            else none
          | none => none
        | _ => none
      | none => none
    | _, _, _, _ => none
  | _ => none

/-- The time filter `is_today` (lines 41-50 of `main.py`): if the string
contains a `'T'`, parse the part before the first `'T'` with
`%Y-%m-%d` and compare it with today's date; any parse failure, or the
absence of a `'T'`, yields `False`.  The current date is passed explicitly
(Python reads `date.today()`). -/
def is_today (date_str : List Char) (today : PDate) : Bool :=
  if 'T' ∈ date_str then
    match strptimeYMD (date_str.takeWhile (fun c => c ≠ 'T')) with
    | some d => d = today
    | none => false
  else false


/-- The dedup loader `load_posted_jobs` (lines 28-32 of `main.py`): a missing
file yields the empty set; otherwise the stripped nonempty lines of the file.
The file contents are passed explicitly; list membership models the Python
set. -/
def load_posted_jobs (file : Option (List Char)) : List (List Char) :=
  match file with
  | none => []
  | some content =>
    ((splitOnChar '\n' content).map pyStrip).filter (fun l => l ≠ [])

/-- The dedup writer `save_posted_job` (lines 34-36 of `main.py`): append
`f"{job_id}\n"` to the file (appending to a missing file creates it). -/
def save_posted_job (job_id : List Char) (file : Option (List Char)) :
    Option (List Char) :=
  some (file.getD [] ++ job_id ++ ['\n'])

/-- Result of one `requests` call: an HTTP status, or a raised exception. -/
inductive HttpResult where
  | ok (status : Nat)
  | exc
deriving DecidableEq, Repr

/-- Did the call return HTTP 200? -/
def isOk200 : HttpResult → Bool
  | .ok s => s == 200
  | .exc => false

/-- Observable events of a pipeline run: the feed fetch, a logo fetch during
image rendering, the two Telegram endpoints (with the caption sent), the
5-minute pacing sleep, and a dedup append. -/
inductive Ev where
  | fetchFeed
  | logoFetch (url : List Char)
  | tgPhoto (caption : List Char)
  | tgText (caption : List Char)
  | sleep
  | record (id : List Char)
deriving DecidableEq, Repr

/-- The publisher `post_to_telegram` (lines 130-168 of `main.py`).  Missing
credentials (Python falsiness of either value) fail with no call.  If an
image path is supplied and exists, the photo endpoint is tried first: 200
succeeds; a non-200 falls through to the text endpoint; a raised exception is
caught by the surrounding `try` and returns `False` with no text attempt.
Otherwise only the text endpoint is called, succeeding iff it returns 200 (an
exception again yields `False`).  Returns the result together with the list
of endpoint calls made. -/
def post_to_telegram (hasToken hasChat : Bool) (pathExists : List Char → Bool)
    (photoResp textResp : HttpResult) (caption : List Char)
    (image_path : Option (List Char)) : Bool × List Ev :=
  if hasToken = false ∨ hasChat = false then (false, [])
  else
    let tryPhoto := match image_path with
      | some p => pathExists p
      | none => false
    if tryPhoto then
      match photoResp with
      | .ok s =>
        if s = 200 then (true, [.tgPhoto caption])
        else
          match textResp with
          | .ok t => (if t = 200 then true else false, [.tgPhoto caption, .tgText caption])
          | .exc => (false, [.tgPhoto caption, .tgText caption])
      | .exc => (false, [.tgPhoto caption])
    else
      match textResp with
      | .ok t => (if t = 200 then true else false, [.tgText caption])
      | .exc => (false, [.tgText caption])

/-- A normalized job dictionary, as built by `fetch_today_jobs`. -/
structure Job where
  id : List Char
  title : List Char
  company_name : List Char
  company_logo : Option (List Char)
  url : List Char
  published : List Char
deriving DecidableEq, Repr

/-- The caption template of `format_caption` (lines 173-186 of `main.py`). -/
def format_caption (job : Job) : List Char :=
  "<b>🚀 New Job Alert: ".data ++ job.title ++ "</b>\n\n🏢 <b>Company:</b> ".data ++
  job.company_name ++ "\n\n🔗 <b>Apply Here:</b> <a href='".data ++ job.url ++
  "'>Click to Apply</a>\n\n<i>More jobs at firstjobtech.in</i>\n\n#JobOpening #Hiring #Careers #".data ++
  job.company_name.filter (fun c => c ≠ ' ')

/-- One raw feed entry, with the `$t`-wrapped fields already unwrapped and
the defaults of the missing-field lookups folded in. -/
structure Entry where
  id : List Char
  title : List Char
  content : List Char
  published : List Char
  links : List (List Char × List Char)
deriving DecidableEq, Repr

/-- The `alternate`-relation link lookup of line 206 of `main.py`: the first
link descriptor whose `rel` is `alternate`, or the empty string. -/
def altLink (links : List (List Char × List Char)) : List Char :=
  match links.find? (fun p => p.1 = "alternate".data) with
  | some p => p.2
  | none => []

/-- The per-entry body of the `fetch_today_jobs` loop (lines 199-216 of
`main.py`): compute `job_id = raw_id.split('-')[-1]`, and if the published
timestamp passes `is_today`, build the normalized job dictionary. -/
def jobOfEntry (today : PDate) (e : Entry) : Option Job :=
  let job_id := lastElem (splitOnChar '-' e.id)
  if is_today e.published today then
    let meta := extract_job_metadata e.title e.content
    some { id := job_id, title := e.title, company_name := meta.1,
           company_logo := meta.2, url := altLink e.links, published := e.published }
  else none

/-- The ingester `fetch_today_jobs` (lines 188-222 of `main.py`): a non-200
response or a network failure yields the empty list (modelled by `none`);
otherwise the entries are filtered through `jobOfEntry` in feed order. -/
def fetch_today_jobs (today : PDate) (feedResp : Option (List Entry)) :
    List Job :=
  match feedResp with
  | none => []
  | some entries => entries.filterMap (jobOfEntry today)

/-- The environment of one run: credential truthiness, the current date, the
feed response, the dedup file contents (`none` when the file is missing), and
the Telegram responses for the k-th attempted job. -/
structure Env where
  hasToken : Bool
  hasChat : Bool
  today : PDate
  feedResp : Option (List Entry)
  dedupFile : Option (List Char)
  photoResp : Nat → HttpResult
  textResp : Nat → HttpResult

/-- Processing of one unseen job inside the `main` loop (lines 251-259 of
`main.py`): `create_job_image` fetches the logo when one is present (the
temporary file exists regardless of rendering success, so the photo post is
always tried first), then `post_to_telegram` runs with the formatted caption.
`k` is the index of this attempt in the run. -/
def runJob (env : Env) (k : Nat) (job : Job) : Bool × List Ev :=
  let logoEvs : List Ev := match job.company_logo with
    | some u => [.logoFetch u]
    | none => []
  let post := post_to_telegram env.hasToken env.hasChat (fun _ => true)
    (env.photoResp k) (env.textResp k) (format_caption job) (some "tmp".data)
  (post.1, logoEvs ++ post.2)

/-- The posting loop of `main` (lines 242-267 of `main.py`): skip jobs whose
id is in the loaded dedup set (with no delay); otherwise sleep 5 minutes
first when an earlier post in this run succeeded (`first_post_done`), run the
job, and on success append the id to the dedup file and set
`first_post_done`.  Returns the final dedup file contents and the event
trace. -/
def mainLoop (env : Env) (posted : List (List Char)) :
    Nat → Bool → Option (List Char) → List Job → Option (List Char) × List Ev
  | _, _, fileC, [] => (fileC, [])
  | k, firstDone, fileC, job :: rest =>
    if job.id ∈ posted then mainLoop env posted k firstDone fileC rest
    else
      let pacing : List Ev := if firstDone then [.sleep] else []
      let r := runJob env k job
      if r.1 then
        let rec1 := mainLoop env posted (k + 1) true (save_posted_job job.id fileC) rest
        (rec1.1, pacing ++ r.2 ++ [.record job.id] ++ rec1.2)
      else
        let rec1 := mainLoop env posted (k + 1) firstDone fileC rest
        (rec1.1, pacing ++ r.2 ++ rec1.2)

/-- The entry point `main` (lines 224-269 of `main.py`): only the bot token
is checked at startup (missing token returns before any network call); then
the dedup set is loaded, the feed is fetched (one HTTP call), and if any jobs
were published today the posting loop runs. -/
def main (env : Env) : Option (List Char) × List Ev :=
  if env.hasToken = false then (env.dedupFile, [])
  else
    let posted := load_posted_jobs env.dedupFile
    let jobs := fetch_today_jobs env.today env.feedResp
    if jobs.isEmpty then (env.dedupFile, [.fetchFeed])
    else
      let r := mainLoop env posted 0 false env.dedupFile jobs
      (r.1, .fetchFeed :: r.2)

/-- Count the events satisfying a predicate in a trace. -/
def countEv (p : Ev → Bool) (tr : List Ev) : Nat :=
  (tr.filter p).length

/-- Is this event the pacing sleep? -/
def isSleep : Ev → Bool
  | .sleep => true
  | _ => false

/-- Is this event a photo-endpoint call (i.e. a publish attempt in a run
where the credentials are present)? -/
def isPhotoCall : Ev → Bool
  | .tgPhoto _ => true
  | _ => false

/-- The id carried by a dedup-append event, if any. -/
def recId : Ev → Option (List Char)
  | .record i => some i
  | _ => none

/-- Specification-side recomputation of the ids of the jobs whose publish
succeeds, walking the job list exactly as the loop does. -/
def succFrom (env : Env) (posted : List (List Char)) : Nat → List Job → List (List Char)
  | _, [] => []
  | k, j :: rest =>
    if j.id ∈ posted then succFrom env posted k rest
    else if (runJob env k j).1 then j.id :: succFrom env posted (k + 1) rest
    else succFrom env posted (k + 1) rest

/-- Number of jobs in the list that are not in the loaded dedup set, i.e.
the jobs the run will attempt. -/
def attemptedCount (posted : List (List Char)) (jobs : List Job) : Nat :=
  (jobs.filter (fun j => j.id ∉ posted)).length

/-- Specification-side recomputation of the publish outcomes (success or
failure, whether reached via the photo post or the text fallback) of the
attempted jobs of a run, in attempt order; skipped jobs contribute no
entry. -/
def attemptSuccs (env : Env) (posted : List (List Char)) : Nat → List Job → List Bool
  | _, [] => []
  | k, j :: rest =>
    if j.id ∈ posted then attemptSuccs env posted k rest
    else (runJob env k j).1 :: attemptSuccs env posted (k + 1) rest

/-- Expected number of pacing delays for a run whose attempts have the given
publish outcomes, starting from the given `first_post_done` flag: one delay
per attempt whose flag is set, the flag becoming set once an outcome is a
success. -/
def sleepSpec : Bool → List Bool → Nat
  | _, [] => 0
  | fd, b :: rest => (if fd then 1 else 0) + sleepSpec (fd || b) rest

/-- The timestamp of the timezone test case: `2026-02-03T23:55:00-08:00`,
which denotes the instant `2026-02-04T13:25:00+05:30`. -/
def tsPST : List Char := "2026-02-03T23:55:00-08:00".data

/-- A reference current date used by concrete scenarios. -/
def dToday : PDate := ⟨2026, 10, 12⟩

/-- A feed entry published on `dToday` (IST offset) with a given raw id. -/
def mkEntry (rawId : List Char) : Entry :=
  { id := rawId, title := "T".data, content := [],
    published := "2026-10-12T09:00:00+05:30".data, links := [] }

/-- Environment with the bot token unset. -/
def envTokenMissing : Env :=
  { hasToken := false, hasChat := true, today := dToday, feedResp := some [],
    dedupFile := none, photoResp := fun _ => .exc, textResp := fun _ => .exc }

/-- Environment with the token set but the chat id unset. -/
def envC2 : Env :=
  { hasToken := true, hasChat := false, today := dToday, feedResp := some [],
    dedupFile := none, photoResp := fun _ => .exc, textResp := fun _ => .exc }

/-- Environment with two fresh jobs for today whose photo posts raise a
network exception (so every publish fails). -/
def envC5 : Env :=
  { hasToken := true, hasChat := true, today := dToday,
    feedResp := some [mkEntry "p-1".data, mkEntry "p-2".data],
    dedupFile := none, photoResp := fun _ => .exc, textResp := fun _ => .ok 200 }

/-- Environment with two fresh jobs for today whose photo posts all return
HTTP 200 (so every publish succeeds). -/
def envW5 : Env :=
  { hasToken := true, hasChat := true, today := dToday,
    feedResp := some [mkEntry "p-1".data, mkEntry "p-2".data],
    dedupFile := none, photoResp := fun _ => .ok 200, textResp := fun _ => .ok 200 }

/-- The job that `jobOfEntry dToday (mkEntry "p-7")` constructs. -/
def jW6 : Job :=
  { id := "7".data, title := "T".data, company_name := "Company".data,
    company_logo := none, url := [], published := "2026-10-12T09:00:00+05:30".data }

/-- C1: the spec requires `is_today` to parse the timestamp as an absolute
instant and convert it to the UTC+5:30 reference zone, so that
`2026-02-03T23:55:00-08:00` belongs to Feb 4 there.  The code instead splits
at `'T'` and compares the raw date part, ignoring the offset: on Feb 4
(IST) it answers `false`, and on Feb 3 it answers `true`. -/
theorem c1_is_today_ignores_offset :
    is_today tsPST ⟨2026, 2, 4⟩ = false ∧ is_today tsPST ⟨2026, 2, 3⟩ = true := by
  decide

/-- C9: `is_today` returns `false` for every string not containing `'T'`,
whatever the current date is; only `'T'`-separated timestamps can be
classified as today. -/
theorem c9_no_T_always_false (s : List Char) (today : PDate)
    (h : 'T' ∉ s) : is_today s today = false := by
  unfold is_today
  rw [if_neg h]

/-- C9 witness: the bare date string `2026-10-12` is rejected even when the
current date is exactly 2026-10-12. -/
theorem c9_witness : is_today "2026-10-12".data ⟨2026, 10, 12⟩ = false :=
  c9_no_T_always_false _ _ (by decide)

/-- C3 counterexample: for the title `"Role - Acme - Widgets"` the claim
demands the portion after the first separator, `"Acme - Widgets"` (no keyword
occurs in it), but the code takes `split(" - ")[1]` and yields `"Acme"`. -/
theorem c3_counterexample :
    extract_company "Role - Acme - Widgets".data = "Acme".data ∧
    "Acme".data ≠ "Acme - Widgets".data := by
  decide

/-- C10 counterexample: the content `<img data-src="x" src='y'>` has a single
img tag whose `src` attribute is single-quoted, so the claim demands no logo
URL; but the regex matches the `src="` inside `data-src="x"` and the
extractor yields `"x"`. -/
theorem c10_counterexample :
    imgMatch "<img data-src=\"x\" src='y'>".data = some "x".data := by
  decide

/-- C8 counterexample: for the empty job id (constructible, since a raw feed
identifier ending in `-` yields an empty trailing segment), `record` appends
a bare newline and a subsequent `load` does not contain the recorded id. -/
theorem c8_counterexample :
    [] ∉ load_posted_jobs (save_posted_job [] none) := by
  decide

/-- C2 counterexample: with the bot token set but the chat id unset, the
pipeline does not exit at the startup check: the feed HTTP request is still
issued, contradicting the claimed zero HTTP calls. -/
theorem c2_counterexample :
    envC2.hasChat = false ∧ (main envC2).2 = [Ev.fetchFeed] :=
  ⟨rfl, rfl⟩

/-- C5 counterexample: two fresh jobs are both attempted, the first publish
fails (photo network exception, no text fallback), and the second attempted
job is NOT preceded by a pacing delay — the trace has two publish attempts
and zero sleeps, while the claim demands a delay before every attempted job
except the first. -/
theorem c5_counterexample :
    countEv isPhotoCall (main envC5).2 = 2 ∧ countEv isSleep (main envC5).2 = 0 := by
  decide

/-- C4 counterexample: with credentials present, an existing artifact, a
photo post that raises a network error and a text endpoint that would return
200, the claim demands a fall-through text post (which would succeed); the
code's surrounding `try` catches the exception and returns `False` having
called only the photo endpoint. -/
theorem c4_counterexample :
    post_to_telegram true true (fun _ => true) .exc (.ok 200) "c".data
      (some "p".data) = (false, [Ev.tgPhoto "c".data]) := by
  decide

/-- C4 amended: with both credentials present, (a) with no artifact path, or
(b) with a path that does not exist, `post_to_telegram` attempts only the
text endpoint and returns true iff it answers 200; (c) a photo post answered
with a non-200 status falls through to a text post of the same caption,
again succeeding iff the text endpoint answers 200; but (d) a photo post
that raises a network exception is caught and returns failure WITHOUT a text
attempt.  Exceptions never propagate (the publisher always returns a
boolean). -/
theorem c4_amended (pe : List Char → Bool) (pr tr : HttpResult) (cap : List Char) :
    post_to_telegram true true pe pr tr cap none = (isOk200 tr, [Ev.tgText cap])
    ∧ (∀ p, pe p = false →
        post_to_telegram true true pe pr tr cap (some p) = (isOk200 tr, [Ev.tgText cap]))
    ∧ (∀ p s, pe p = true → pr = .ok s → s ≠ 200 →
        post_to_telegram true true pe pr tr cap (some p) =
          (isOk200 tr, [Ev.tgPhoto cap, Ev.tgText cap]))
    ∧ (∀ p, pe p = true → pr = .exc →
        post_to_telegram true true pe pr tr cap (some p) = (false, [Ev.tgPhoto cap])) := by
  refine ⟨?_, ?_, ?_, ?_⟩
  · cases tr with
    | ok t =>
      by_cases h : t = 200 <;> simp [post_to_telegram, isOk200, h]
    | exc => simp [post_to_telegram, isOk200]
  · intro p hp
    cases tr with
    | ok t =>
      by_cases h : t = 200 <;> simp [post_to_telegram, isOk200, hp, h]
    | exc => simp [post_to_telegram, isOk200, hp]
  · intro p s hp hpr hs
    subst hpr
    cases tr with
    | ok t =>
      by_cases h : t = 200 <;> simp [post_to_telegram, isOk200, hp, hs, h]
    | exc => simp [post_to_telegram, isOk200, hp, hs]
  · intro p hp hpr
    subst hpr
    simp [post_to_telegram, hp]

/-- C4 witness: concrete instance of the missing-artifact branch — the path
does not exist, the photo endpoint would answer 500 but is never called, the
text endpoint answers 200, and publish succeeds with a single text call. -/
theorem c4_amended_witness :
    post_to_telegram true true (fun _ => false) (.ok 500) (.ok 200) "c".data
      (some "p".data) = (isOk200 (.ok 200), [Ev.tgText "c".data]) :=
  (c4_amended (fun _ => false) (.ok 500) (.ok 200) "c".data).2.1 "p".data rfl

theorem consHead_ne_nil (c : Char) (r : List (List Char)) : consHead c r ≠ [] := by
  cases r <;> simp [consHead]

theorem splitOnChar_ne_nil (sep : Char) (l : List Char) : splitOnChar sep l ≠ [] := by
  cases l with
  | nil => simp [splitOnChar]
  | cons c cs =>
    by_cases h : c = sep <;> simp [splitOnChar, h, consHead_ne_nil]

theorem consHead_append (c : Char) (xs ys : List (List Char)) (h : xs ≠ []) :
    consHead c (xs ++ ys) = consHead c xs ++ ys := by
  cases xs with
  | nil => exact absurd rfl h
  | cons x xt => simp [consHead]

/-- Splitting distributes over an occurrence of the separator. -/
theorem splitOnChar_append_sep (sep : Char) (pre suf : List Char) :
    splitOnChar sep (pre ++ sep :: suf) =
      splitOnChar sep pre ++ splitOnChar sep suf := by
  induction pre with
  | nil => simp [splitOnChar]
  | cons c cs ih =>
    by_cases h : c = sep
    · simp [splitOnChar, h, ih]
    · simp only [List.cons_append, splitOnChar, if_neg h, List.append_eq]
      rw [ih, consHead_append _ _ _ (splitOnChar_ne_nil sep cs)]

/-- A string free of the separator is a single chunk. -/
theorem splitOnChar_of_not_mem (sep : Char) (l : List Char) (h : sep ∉ l) :
    splitOnChar sep l = [l] := by
  induction l with
  | nil => simp [splitOnChar]
  | cons c cs ih =>
    rw [List.mem_cons, not_or] at h
    obtain ⟨h1, h2⟩ := h
    have hc : c ≠ sep := fun e => h1 e.symm
    simp [splitOnChar, hc, ih h2, consHead]

/-- C8 amended: `record(id)` followed by `load()` does contain `id`,
provided the id is nonempty, contains no newline, and carries no leading or
trailing whitespace (ill-formed ids are silently dropped or rewritten by the
line-stripping loader), and provided the store contents are empty, absent,
or newline-terminated — the shape `record` always maintains.  Under those
conditions a second run on an unchanged feed sees the id in its loaded set
and skips the job, so each such id is posted at most once across runs. -/
theorem c8_amended (i : List Char) (file : Option (List Char))
    (hne : i ≠ []) (hnl : '\n' ∉ i) (hstrip : pyStrip i = i)
    (hfile : file = none ∨ file = some [] ∨ ∃ pre, file = some (pre ++ ['\n'])) :
    i ∈ load_posted_jobs (save_posted_job i file) := by
  have hbase : ∀ rest : List Char,
      splitOnChar '\n' (i ++ '\n' :: rest) = i :: splitOnChar '\n' rest := by
    intro rest
    rw [splitOnChar_append_sep, splitOnChar_of_not_mem _ _ hnl]
    rfl
  have hsplit : i ∈ splitOnChar '\n' (file.getD [] ++ i ++ ['\n']) := by
    rcases hfile with h | h | ⟨pre, h⟩
    · subst h
      simpa using (hbase []).symm ▸ List.mem_cons_self i (splitOnChar '\n' [])
    · subst h
      simpa using (hbase []).symm ▸ List.mem_cons_self i (splitOnChar '\n' [])
    · subst h
      have hshape : (some (pre ++ ['\n']) : Option (List Char)).getD [] ++ i ++ ['\n'] =
          pre ++ '\n' :: (i ++ ['\n']) := by
        simp
      rw [hshape, splitOnChar_append_sep]
      refine List.mem_append_right _ ?_
      rw [show i ++ ['\n'] = i ++ '\n' :: ([] : List Char) from rfl, hbase]
      exact List.mem_cons_self _ _
  show i ∈ ((splitOnChar '\n' (file.getD [] ++ i ++ ['\n'])).map pyStrip).filter
      (fun l => l ≠ [])
  refine List.mem_filter.mpr ⟨List.mem_map.mpr ⟨i, hsplit, hstrip⟩, ?_⟩
  simpa using hne

/-- C8 witness: a well-formed id round-trips through the dedup store. -/
theorem c8_amended_witness :
    "123".data ∈ load_posted_jobs (save_posted_job "123".data none) :=
  c8_amended "123".data none (by decide) (by decide) (by decide) (Or.inl rfl)

theorem length_consHead (c : Char) (r : List (List Char)) :
    (consHead c r).length = max 1 r.length := by
  cases r with
  | nil => simp [consHead]
  | cons x t => simp [consHead]

theorem splitOnChar_two_le (sep : Char) (l : List Char) (h : sep ∈ l) :
    2 ≤ (splitOnChar sep l).length := by
  induction l with
  | nil => cases h
  | cons c cs ih =>
    by_cases hc : c = sep
    · have h1 : splitOnChar sep cs ≠ [] := splitOnChar_ne_nil sep cs
      have h2 : 1 ≤ (splitOnChar sep cs).length := List.length_pos.mpr h1
      simp [splitOnChar, hc]
      omega
    · have hm : sep ∈ cs := by
        rcases List.mem_cons.mp h with h' | h'
        · exact absurd h'.symm hc
        · exact h'
      have h2 := ih hm
      simp [splitOnChar, hc, length_consHead]
      omega

theorem lastElem_cons_cons (x y : List Char) (t : List (List Char)) :
    lastElem (x :: y :: t) = lastElem (y :: t) := rfl

/-- The source's `raw_id.split('-')[-1]` computes the trailing
`'-'`-segment. -/
theorem lastElem_splitOnChar (l : List Char) :
    lastElem (splitOnChar '-' l) = lastSeg l := by
  induction l with
  | nil => rfl
  | cons c cs ih =>
    by_cases hc : c = '-'
    · subst hc
      obtain ⟨x, t, hxt⟩ := List.exists_cons_of_ne_nil (splitOnChar_ne_nil '-' cs)
      rw [show splitOnChar '-' ('-' :: cs) = [] :: splitOnChar '-' cs from by
            simp [splitOnChar],
          hxt, lastElem_cons_cons, ← hxt, ih]
      simp [lastSeg]
    · by_cases hm : '-' ∈ cs
      · obtain ⟨x, t, hxt⟩ := List.exists_cons_of_ne_nil (splitOnChar_ne_nil '-' cs)
        have hlen := splitOnChar_two_le '-' cs hm
        rw [hxt] at hlen
        obtain ⟨y, ys, hys⟩ : ∃ y ys, t = y :: ys := by
          cases t with
          | nil => simp at hlen
          | cons y ys => exact ⟨y, ys, rfl⟩
        rw [show splitOnChar '-' (c :: cs) = consHead c (splitOnChar '-' cs) from by
              simp [splitOnChar, hc],
            hxt, hys]
        rw [show consHead c ((x :: y :: ys : List (List Char))) = (c :: x) :: y :: ys from rfl,
            lastElem_cons_cons, ← lastElem_cons_cons x y ys, ← hys, ← hxt, ih]
        simp [lastSeg, hc, hm]
      · rw [show splitOnChar '-' (c :: cs) = consHead c (splitOnChar '-' cs) from by
              simp [splitOnChar, hc],
            splitOnChar_of_not_mem '-' cs hm]
        simp [consHead, lastElem, lastSeg, hc, hm]

/-- The trailing segment is nonempty unless the raw id is empty or ends in
`'-'`. -/
theorem lastSeg_ne_nil (l : List Char) (h0 : l ≠ []) (h1 : l.getLast? ≠ some '-') :
    lastSeg l ≠ [] := by
  induction l with
  | nil => exact absurd rfl h0
  | cons c cs ih =>
    cases cs with
    | nil =>
      have hc : c ≠ '-' := by
        intro e
        exact h1 (by simp [e])
      simp [lastSeg, hc]
    | cons d ds =>
      have h1' : (d :: ds).getLast? ≠ some '-' := by
        simpa [List.getLast?_cons_cons] using h1
      have ihh := ih (by simp) h1'
      by_cases hc : c = '-'
      · simpa [lastSeg, hc] using ihh
      · by_cases hm : '-' ∈ (d :: ds)
        · simpa [lastSeg, hc, hm] using ihh
        · simp [lastSeg, hc, hm]

/-- C6 amended: every job the ingester constructs has as id the trailing
`'-'`-segment of the raw identifier, and that id is non-empty PROVIDED the
raw identifier is non-empty and does not end in `'-'`; the unconditional
non-emptiness of the claim fails (see the counterexample). -/
theorem c6_amended (today : PDate) (e : Entry) (j : Job)
    (h : jobOfEntry today e = some j) :
    j.id = lastSeg e.id ∧ (e.id ≠ [] → e.id.getLast? ≠ some '-' → j.id ≠ []) := by
  simp only [jobOfEntry] at h
  cases hb : is_today e.published today with
  | false =>
    rw [hb] at h
    simp at h
  | true =>
    rw [hb] at h
    simp only [if_true, Option.some.injEq] at h
    have hid : j.id = lastElem (splitOnChar '-' e.id) := by
      rw [← h]
    rw [hid, lastElem_splitOnChar]
    exact ⟨rfl, fun h0 h1 => lastSeg_ne_nil e.id h0 h1⟩

/-- C6 counterexample: a feed entry whose raw identifier is the empty string
is ingested (when published today) into a job whose id is EMPTY, violating
the claimed non-emptiness invariant. -/
theorem c6_counterexample :
    (fetch_today_jobs dToday (some [mkEntry []])).map Job.id = [[]] := by
  decide

/-- C6 witness: for the raw identifier `p-7` the constructed job id is the
trailing segment `7`, which is non-empty. -/
theorem c6_amended_witness :
    jW6.id = lastSeg (mkEntry "p-7".data).id ∧ jW6.id ≠ [] := by
  have h : jobOfEntry dToday (mkEntry "p-7".data) = some jW6 := by decide
  exact ⟨(c6_amended dToday (mkEntry "p-7".data) jW6 h).1,
         (c6_amended dToday (mkEntry "p-7".data) jW6 h).2 (by decide) (by decide)⟩

/-- Unified step equation for `splitSep` in terms of a separator-prefix
test. -/
theorem splitSep_cons (c : Char) (cs : List Char) :
    splitSep (c :: cs) =
      if c = ' ' ∧ cs.take 2 = ['-', ' '] then [] :: splitSep (cs.drop 2)
      else consHead c (splitSep cs) := by
  match cs with
  | [] => simp [splitSep, consHead]
  | [d] => simp [splitSep, consHead]
  | d :: e :: rest => simp [splitSep]

/-- A title containing the separator tests positive for `" - " in title`. -/
theorem containsSep_append (a rest : List Char) :
    containsSep (a ++ ' ' :: '-' :: ' ' :: rest) = true := by
  induction a with
  | nil => simp [containsSep]
  | cons x a ih => simp [containsSep, ih]

/-- Splitting a title at an exposed separator occurrence.  The hypotheses
are exactly what "this occurrence is the first one" forces: the part `a`
before it contains no occurrence of `" - "` itself, and does not end with
the two characters `' '`, `'-'` (otherwise an occurrence overlapping the
boundary would start two characters earlier and win the left-to-right
scan). -/
theorem splitSep_append_first (a : List Char) :
    ∀ rest : List Char, containsSep a = false → ¬ [' ', '-'] <:+ a →
      splitSep (a ++ ' ' :: '-' :: ' ' :: rest) = a :: splitSep rest := by
  induction a with
  | nil =>
    intro rest _ _
    simp [splitSep]
  | cons x a ih =>
    intro rest ha hsuf
    simp only [containsSep, Bool.or_eq_false_iff, decide_eq_false_iff_not] at ha
    obtain ⟨hx, ha'⟩ := ha
    have hsuf' : ¬ [' ', '-'] <:+ a := fun hs => hsuf (hs.trans (List.suffix_cons x a))
    have hcond : ¬(x = ' ' ∧ (a ++ ' ' :: '-' :: ' ' :: rest).take 2 = ['-', ' ']) := by
      rintro ⟨hxe, htake⟩
      cases a with
      | nil => simp at htake
      | cons y t =>
        cases t with
        | nil =>
          simp at htake
          subst hxe
          subst htake
          exact hsuf (List.suffix_refl _)
        | cons z t2 =>
          simp at htake
          exact hx ⟨hxe, by simp [htake.1, htake.2]⟩
    rw [List.cons_append, splitSep_cons, if_neg hcond, ih rest ha' hsuf']
    rfl

/-- A separator-free title is a single chunk. -/
theorem splitSep_of_not_contains (l : List Char) (h : containsSep l = false) :
    splitSep l = [l] := by
  induction l with
  | nil => rfl
  | cons c cs ih =>
    simp only [containsSep, Bool.or_eq_false_iff, decide_eq_false_iff_not] at h
    rw [splitSep_cons, if_neg h.1, ih h.2]
    rfl

/-- C3 amended: the company name is derived from `split(" - ")[1]`, the
segment strictly BETWEEN the first and second occurrence of the separator
(not the whole remainder of the title after the first occurrence, which the
original claim states; see the counterexample).  Every title containing the
separator is covered: write it as `a ++ " - " ++ rest`, where `a` is the
text before the FIRST occurrence — which forces exactly that `a` contains
no occurrence and does not end with `' '`, `'-'` — and likewise `b` is the
text of `rest` before ITS first occurrence (if any).  With no separator (or
an empty cleaned result) the sentinel `"Company"` is produced; otherwise
the result is the keyword-stripped, whitespace-trimmed `b`. -/
theorem c3_amended :
    (∀ title, containsSep title = false → extract_company title = "Company".data)
    ∧ (∀ a b c : List Char,
        containsSep a = false → ¬ [' ', '-'] <:+ a →
        containsSep b = false → ¬ [' ', '-'] <:+ b →
        extract_company (a ++ ' ' :: '-' :: ' ' :: (b ++ ' ' :: '-' :: ' ' :: c)) =
          if pyStrip (subKw b) = [] then "Company".data else pyStrip (subKw b))
    ∧ (∀ a b : List Char,
        containsSep a = false → ¬ [' ', '-'] <:+ a → containsSep b = false →
        extract_company (a ++ ' ' :: '-' :: ' ' :: b) =
          if pyStrip (subKw b) = [] then "Company".data else pyStrip (subKw b)) := by
  refine ⟨?_, ?_, ?_⟩
  · intro title h
    simp [extract_company, h]
  · intro a b c ha hsa hb hsb
    have hcs := containsSep_append a (b ++ ' ' :: '-' :: ' ' :: c)
    have hsp : splitSep (a ++ ' ' :: '-' :: ' ' :: (b ++ ' ' :: '-' :: ' ' :: c)) =
        a :: b :: splitSep c := by
      rw [splitSep_append_first a _ ha hsa, splitSep_append_first b _ hb hsb]
    simp [extract_company, hcs, hsp, List.getD]
  · intro a b ha hsa hb
    have hcs := containsSep_append a b
    have hsp : splitSep (a ++ ' ' :: '-' :: ' ' :: b) = a :: [b] := by
      rw [splitSep_append_first a _ ha hsa, splitSep_of_not_contains _ hb]
    simp [extract_company, hcs, hsp, List.getD]

/-- C3 witness: an ordinary space-containing title, `Software Engineer -
Acme Corp` — the company comes from the segment after the separator. -/
theorem c3_amended_witness :
    extract_company ("Software Engineer".data ++ ' ' :: '-' :: ' ' :: "Acme Corp".data) =
      if pyStrip (subKw "Acme Corp".data) = [] then "Company".data
      else pyStrip (subKw "Acme Corp".data) :=
  c3_amended.2.2 "Software Engineer".data "Acme Corp".data
    (by decide) (by decide) (by decide)

theorem containsSub_not_isPrefixOf (pat l : List Char)
    (h : containsSub pat l = false) : pat.isPrefixOf l = false := by
  cases l with
  | nil => simpa [containsSub] using h
  | cons c cs =>
    simp only [containsSub, Bool.or_eq_false_iff] at h
    exact h.1

theorem containsSub_tail (pat : List Char) (c : Char) (cs : List Char)
    (h : containsSub pat (c :: cs) = false) : containsSub pat cs = false := by
  simp only [containsSub, Bool.or_eq_false_iff] at h
  exact h.2

theorem containsSub_drop (pat l : List Char) (n : Nat)
    (h : containsSub pat l = false) : containsSub pat (l.drop n) = false := by
  induction n generalizing l with
  | zero => simpa using h
  | succ n ih =>
    cases l with
    | nil => simpa using h
    | cons c cs =>
      rw [List.drop_succ_cons]
      exact ih cs (containsSub_tail pat c cs h)

theorem imgTagSearch_none (l : List Char)
    (h : containsSub "src=\"".data l = false) : imgTagSearch l = none := by
  induction l with
  | nil => rfl
  | cons c cs ih =>
    have h2 := containsSub_tail _ c cs h
    have hpre : "src=\"".data.isPrefixOf cs = false :=
      containsSub_not_isPrefixOf _ _ h2
    by_cases hc : c = '>'
    · simp [imgTagSearch, hc]
    · simp [imgTagSearch, hc, ih h2, hpre]

/-- C10 amended: the extractor can only yield a URL when the literal
five-character sequence `src="` occurs somewhere in the content; content
without that sequence — in particular an img tag whose `src` attribute is
single-quoted or unquoted and with no other double-quoted attribute ending
in `src=` — yields no logo URL.  The claim as stated is refuted by the
counterexample, where an embedded `data-src="..."` satisfies the regex even
though the tag's own `src` is single-quoted. -/
theorem c10_amended (content : List Char)
    (h : containsSub "src=\"".data content = false) :
    imgMatch content = none := by
  induction content with
  | nil => rfl
  | cons c cs ih =>
    have h2 := containsSub_tail _ c cs h
    have hdrop : containsSub "src=\"".data (cs.drop 3) = false :=
      containsSub_drop _ _ 3 h2
    by_cases hp : "<img".data.isPrefixOf (c :: cs) = true
    · simp [imgMatch, hp, imgTagSearch_none _ hdrop, ih h2]
    · simp [imgMatch, hp, ih h2]

/-- C10 witness: a single-quoted `src` with no `src="` sequence anywhere
yields no logo URL. -/
theorem c10_amended_witness : imgMatch "<img src='y.png'>".data = none :=
  c10_amended _ (by decide)

theorem post_no_chat (hasToken : Bool) (pe : List Char → Bool)
    (pr tr : HttpResult) (cap : List Char) (ip : Option (List Char)) :
    post_to_telegram hasToken false pe pr tr cap ip = (false, []) := by
  simp [post_to_telegram]

theorem runJob_no_chat_fst (env : Env) (hchat : env.hasChat = false)
    (k : Nat) (job : Job) : (runJob env k job).1 = false := by
  simp [runJob, hchat, post_no_chat]

theorem runJob_no_chat_snd (env : Env) (hchat : env.hasChat = false)
    (k : Nat) (job : Job) :
    ∀ ev ∈ (runJob env k job).2, ∃ u, ev = Ev.logoFetch u := by
  simp only [runJob, hchat, post_no_chat]
  cases job.company_logo <;> simp

theorem mainLoop_no_chat (env : Env) (hchat : env.hasChat = false)
    (posted : List (List Char)) :
    ∀ (jobs : List Job) (k : Nat) (fileC : Option (List Char)),
      (mainLoop env posted k false fileC jobs).1 = fileC ∧
      ∀ ev ∈ (mainLoop env posted k false fileC jobs).2,
        ∃ u, ev = Ev.logoFetch u := by
  intro jobs
  induction jobs with
  | nil =>
    intro k fileC
    exact ⟨rfl, by simp [mainLoop]⟩
  | cons job rest ih =>
    intro k fileC
    by_cases hmem : job.id ∈ posted
    · simpa [mainLoop, hmem] using ih k fileC
    · obtain ⟨ih1, ih2⟩ := ih (k + 1) fileC
      have heq : mainLoop env posted k false fileC (job :: rest) =
          ((mainLoop env posted (k + 1) false fileC rest).1,
           (runJob env k job).2 ++ (mainLoop env posted (k + 1) false fileC rest).2) := by
        simp [mainLoop, hmem, runJob_no_chat_fst env hchat k job]
      rw [heq]
      refine ⟨ih1, fun ev hev => ?_⟩
      rcases List.mem_append.mp hev with h' | h'
      · exact runJob_no_chat_snd env hchat k job ev h'
      · exact ih2 ev h'

/-- C2 amended: only the bot token is checked at startup.  If the token is
unset, `main` returns immediately: no HTTP call, no sleep, no dedup change.
If the chat id is unset but the token is set, the startup check passes and
the feed HTTP fetch still happens (plus possibly logo fetches during
rendering — refuting the claimed zero HTTP calls, see the counterexample),
but no Telegram endpoint is ever called, nothing is recorded, and the dedup
file is unchanged. -/
theorem c2_amended :
    (∀ env : Env, env.hasToken = false → main env = (env.dedupFile, []))
    ∧ (∀ env : Env, env.hasChat = false →
        (main env).1 = env.dedupFile ∧
        ∀ ev ∈ (main env).2, ev = Ev.fetchFeed ∨ ∃ u, ev = Ev.logoFetch u) := by
  constructor
  · intro env h
    simp [main, h]
  · intro env hchat
    by_cases htok : env.hasToken = false
    · simp [main, htok]
    · have htok' : env.hasToken = true := by
        cases h : env.hasToken
        · exact absurd h htok
        · rfl
      obtain ⟨m1, m2⟩ := mainLoop_no_chat env hchat (load_posted_jobs env.dedupFile)
        (fetch_today_jobs env.today env.feedResp) 0 env.dedupFile
      cases hjobs : (fetch_today_jobs env.today env.feedResp).isEmpty with
      | true =>
        constructor
        · simp [main, htok', hjobs]
        · intro ev hev
          simp [main, htok', hjobs] at hev
          exact Or.inl hev
      | false =>
        constructor
        · simpa [main, htok', hjobs] using m1
        · intro ev hev
          simp only [main, htok', hjobs] at hev
          simp at hev
          rcases hev with hf | hr
          · exact Or.inl hf
          · exact Or.inr (m2 ev hr)

/-- C2 witness: with the bot token unset the run produces no events and
leaves the dedup file untouched. -/
theorem c2_amended_witness : main envTokenMissing = (envTokenMissing.dedupFile, []) :=
  c2_amended.1 envTokenMissing rfl

theorem countEv_append (p : Ev → Bool) (a b : List Ev) :
    countEv p (a ++ b) = countEv p a + countEv p b := by
  simp [countEv, List.filter_append]

theorem post_sleep_count (tok chat : Bool) (pe : List Char → Bool)
    (pr tr : HttpResult) (cap : List Char) (ip : Option (List Char)) :
    countEv isSleep (post_to_telegram tok chat pe pr tr cap ip).2 = 0 := by
  rcases pr with s | _ <;> rcases tr with t | _ <;> rcases ip with _ | p <;>
    simp [post_to_telegram, countEv, isSleep] <;> split_ifs <;>
    simp [countEv, isSleep]

theorem runJob_sleep_count (env : Env) (k : Nat) (job : Job) :
    countEv isSleep (runJob env k job).2 = 0 := by
  simp only [runJob, countEv_append, post_sleep_count]
  cases job.company_logo <;> simp [countEv, isSleep]

theorem attemptedCount_cons_mem (posted : List (List Char)) (job : Job)
    (rest : List Job) (hmem : job.id ∈ posted) :
    attemptedCount posted (job :: rest) = attemptedCount posted rest := by
  simp [attemptedCount, List.filter, hmem]

theorem attemptedCount_cons_not_mem (posted : List (List Char)) (job : Job)
    (rest : List Job) (hmem : job.id ∉ posted) :
    attemptedCount posted (job :: rest) = attemptedCount posted rest + 1 := by
  simp [attemptedCount, List.filter, hmem]

theorem attemptSuccs_length (env : Env) (posted : List (List Char)) :
    ∀ (jobs : List Job) (k : Nat),
      (attemptSuccs env posted k jobs).length = attemptedCount posted jobs := by
  intro jobs
  induction jobs with
  | nil =>
    intro k
    simp [attemptSuccs, attemptedCount]
  | cons job rest ih =>
    intro k
    by_cases hmem : job.id ∈ posted
    · rw [attemptedCount_cons_mem posted job rest hmem]
      simpa [attemptSuccs, hmem] using ih k
    · rw [attemptedCount_cons_not_mem posted job rest hmem]
      simpa [attemptSuccs, hmem] using ih (k + 1)

theorem mainLoop_sleep_count (env : Env) (posted : List (List Char)) :
    ∀ (jobs : List Job) (k : Nat) (fd : Bool) (fileC : Option (List Char)),
      countEv isSleep (mainLoop env posted k fd fileC jobs).2 =
        sleepSpec fd (attemptSuccs env posted k jobs) := by
  intro jobs
  induction jobs with
  | nil =>
    intro k fd fileC
    simp [mainLoop, attemptSuccs, sleepSpec, countEv]
  | cons job rest ih =>
    intro k fd fileC
    by_cases hmem : job.id ∈ posted
    · simpa [mainLoop, attemptSuccs, hmem] using ih k fd fileC
    · cases hr : (runJob env k job).1 with
      | true =>
        have heq : mainLoop env posted k fd fileC (job :: rest) =
            ((mainLoop env posted (k + 1) true (save_posted_job job.id fileC) rest).1,
             (if fd then [Ev.sleep] else []) ++ (runJob env k job).2 ++ [Ev.record job.id]
               ++ (mainLoop env posted (k + 1) true (save_posted_job job.id fileC) rest).2) := by
          simp [mainLoop, hmem, hr]
        rw [heq]
        simp only [countEv_append]
        rw [ih (k + 1) true (save_posted_job job.id fileC)]
        rw [runJob_sleep_count env k job]
        simp only [attemptSuccs, if_neg hmem, hr, sleepSpec, Bool.or_true]
        cases fd <;> simp [countEv, isSleep]
      | false =>
        have heq : mainLoop env posted k fd fileC (job :: rest) =
            ((mainLoop env posted (k + 1) fd fileC rest).1,
             (if fd then [Ev.sleep] else []) ++ (runJob env k job).2
               ++ (mainLoop env posted (k + 1) fd fileC rest).2) := by
          simp [mainLoop, hmem, hr]
        rw [heq]
        simp only [countEv_append]
        rw [ih (k + 1) fd fileC]
        rw [runJob_sleep_count env k job]
        simp only [attemptSuccs, if_neg hmem, hr, sleepSpec, Bool.or_false]
        cases fd <;> simp [countEv, isSleep]

/-- The expected delay count equals the number of attempt indices `i` such
that some attempt strictly before `i` succeeded (with the starting flag as
an extra disjunct) — the per-attempt rule of the pacing claim, in counted
form. -/
theorem sleepSpec_eq_countP (bs : List Bool) :
    ∀ fd : Bool, sleepSpec fd bs =
      (List.range bs.length).countP
        (fun i => fd || (bs.take i).contains true) := by
  induction bs with
  | nil =>
    intro fd
    simp [sleepSpec]
  | cons b rest ih =>
    intro fd
    rw [show (b :: rest).length = rest.length + 1 from rfl,
      List.range_succ_eq_map, List.countP_cons, List.countP_map]
    have hfun : ((fun i => fd || ((b :: rest).take i).contains true) ∘ Nat.succ) =
        (fun i => (fd || b) || (rest.take i).contains true) := by
      funext i
      simp [Function.comp, List.take_succ_cons, Bool.or_assoc]
    rw [hfun, ← ih (fd || b)]
    cases fd <;> simp [sleepSpec, Nat.add_comm]

theorem sleepSpec_true_all (bs : List Bool) (h : ∀ b ∈ bs, b = true) :
    sleepSpec true bs = bs.length := by
  induction bs with
  | nil => rfl
  | cons b rest ih =>
    have hb : b = true := h b (List.mem_cons_self b rest)
    simp [sleepSpec, hb, ih (fun x hx => h x (List.mem_cons_of_mem b hx)),
      Nat.add_comm]

theorem sleepSpec_all_true (bs : List Bool) (h : ∀ b ∈ bs, b = true) :
    sleepSpec false bs = bs.length - 1 := by
  cases bs with
  | nil => rfl
  | cons b rest =>
    have hb : b = true := h b (List.mem_cons_self b rest)
    simp [sleepSpec, hb,
      sleepSpec_true_all rest (fun x hx => h x (List.mem_cons_of_mem b hx))]

theorem sleepSpec_all_false (bs : List Bool) (h : ∀ b ∈ bs, b = false) :
    sleepSpec false bs = 0 := by
  induction bs with
  | nil => rfl
  | cons b rest ih =>
    have hb : b = false := h b (List.mem_cons_self b rest)
    simp [sleepSpec, hb, ih (fun x hx => h x (List.mem_cons_of_mem b hx))]

/-- C5 amended: for an ARBITRARY run (any pattern of publish successes,
failures and dedup skips), the number of pacing delays equals the number of
attempted jobs preceded by at least one successful publish of this run —
the code's `first_post_done` flag at an attempt is exactly "some earlier
attempted publish succeeded", and skipped jobs contribute neither a delay
nor a success.  Hence: when EVERY attempted publish succeeds (whether via
the photo post or the text fallback), N attempted jobs incur exactly N − 1
delays; and when no publish succeeds, zero delays are issued — refuting the
original claim's "delay before every attempted job except the first
attempted" (see the counterexample). -/
theorem c5_amended (env : Env) (htok : env.hasToken = true) :
    countEv isSleep (main env).2 =
      (List.range (attemptSuccs env (load_posted_jobs env.dedupFile) 0
          (fetch_today_jobs env.today env.feedResp)).length).countP
        (fun i => ((attemptSuccs env (load_posted_jobs env.dedupFile) 0
            (fetch_today_jobs env.today env.feedResp)).take i).contains true)
    ∧ ((∀ b ∈ attemptSuccs env (load_posted_jobs env.dedupFile) 0
          (fetch_today_jobs env.today env.feedResp), b = true) →
        countEv isSleep (main env).2 =
          attemptedCount (load_posted_jobs env.dedupFile)
            (fetch_today_jobs env.today env.feedResp) - 1)
    ∧ ((∀ b ∈ attemptSuccs env (load_posted_jobs env.dedupFile) 0
          (fetch_today_jobs env.today env.feedResp), b = false) →
        countEv isSleep (main env).2 = 0) := by
  have hmain : countEv isSleep (main env).2 =
      sleepSpec false (attemptSuccs env (load_posted_jobs env.dedupFile) 0
        (fetch_today_jobs env.today env.feedResp)) := by
    cases hjobs : (fetch_today_jobs env.today env.feedResp).isEmpty with
    | true =>
      have hnil : fetch_today_jobs env.today env.feedResp = [] :=
        List.isEmpty_iff.mp hjobs
      simp [main, htok, hjobs, hnil, attemptSuccs, sleepSpec, countEv, isSleep]
    | false =>
      have hml := mainLoop_sleep_count env (load_posted_jobs env.dedupFile)
        (fetch_today_jobs env.today env.feedResp) 0 false env.dedupFile
      simp only [main, htok, Bool.true_eq_false, if_false, hjobs,
        Bool.false_eq_true]
      simpa [countEv, isSleep] using hml
  refine ⟨?_, ?_, ?_⟩
  · rw [hmain, sleepSpec_eq_countP]
    simp
  · intro hall
    rw [hmain, sleepSpec_all_true _ hall,
      attemptSuccs_length env (load_posted_jobs env.dedupFile)
        (fetch_today_jobs env.today env.feedResp) 0]
  · intro hall
    rw [hmain, sleepSpec_all_false _ hall]

/-- C5 witness: two fresh jobs, every publish succeeds — exactly one pacing
delay. -/
theorem c5_amended_witness : countEv isSleep (main envW5).2 = 1 := by
  have h := (c5_amended envW5 rfl).2.1 (by decide)
  exact h.trans (by decide)

theorem post_record_filter (tok chat : Bool) (pe : List Char → Bool)
    (pr tr : HttpResult) (cap : List Char) (ip : Option (List Char)) :
    (post_to_telegram tok chat pe pr tr cap ip).2.filterMap recId = [] := by
  rcases pr with s | _ <;> rcases tr with t | _ <;> rcases ip with _ | p <;>
    simp [post_to_telegram, recId] <;> split_ifs <;> simp [recId]

theorem runJob_record_filter (env : Env) (k : Nat) (job : Job) :
    (runJob env k job).2.filterMap recId = [] := by
  simp only [runJob, List.filterMap_append, post_record_filter]
  cases job.company_logo <;> simp [recId]

theorem mainLoop_records (env : Env) (posted : List (List Char)) :
    ∀ (jobs : List Job) (k : Nat) (fd : Bool) (fileC : Option (List Char)),
      (mainLoop env posted k fd fileC jobs).2.filterMap recId =
        succFrom env posted k jobs ∧
      (mainLoop env posted k fd fileC jobs).1 =
        (succFrom env posted k jobs).foldl (fun f i => save_posted_job i f) fileC := by
  intro jobs
  induction jobs with
  | nil =>
    intro k fd fileC
    exact ⟨rfl, rfl⟩
  | cons job rest ih =>
    intro k fd fileC
    by_cases hmem : job.id ∈ posted
    · simpa [mainLoop, succFrom, hmem] using ih k fd fileC
    · cases hr : (runJob env k job).1 with
      | true =>
        obtain ⟨ih1, ih2⟩ := ih (k + 1) true (save_posted_job job.id fileC)
        have hpac : ∀ b : Bool, (if b then [Ev.sleep] else []).filterMap recId = [] := by
          intro b
          cases b <;> simp [recId]
        constructor
        · simp [mainLoop, succFrom, hmem, hr, List.filterMap_append, hpac,
                runJob_record_filter, recId, ih1]
        · simp [mainLoop, succFrom, hmem, hr, ih2]
      | false =>
        obtain ⟨ih1, ih2⟩ := ih (k + 1) fd fileC
        have hpac : ∀ b : Bool, (if b then [Ev.sleep] else []).filterMap recId = [] := by
          intro b
          cases b <;> simp [recId]
        constructor
        · simp [mainLoop, succFrom, hmem, hr, List.filterMap_append, hpac,
                runJob_record_filter, ih1]
        · simp [mainLoop, succFrom, hmem, hr, ih2]

/-- C7: within a run, the dedup store is appended to exactly for the jobs
whose publish returned success, in order: the record events of the trace are
precisely the ids of the successful publishes, and the final dedup file is
the initial file with exactly those ids appended — a failed publish leaves
the persisted state untouched for that job, which therefore remains eligible
on the next run. -/
theorem c7_record_iff_success (env : Env) (htok : env.hasToken = true) :
    (main env).2.filterMap recId =
      succFrom env (load_posted_jobs env.dedupFile) 0
        (fetch_today_jobs env.today env.feedResp) ∧
    (main env).1 =
      (succFrom env (load_posted_jobs env.dedupFile) 0
        (fetch_today_jobs env.today env.feedResp)).foldl
          (fun f i => save_posted_job i f) env.dedupFile := by
  cases hjobs : (fetch_today_jobs env.today env.feedResp).isEmpty with
  | true =>
    have hnil : fetch_today_jobs env.today env.feedResp = [] :=
      List.isEmpty_iff.mp hjobs
    constructor <;> simp [main, htok, hjobs, hnil, succFrom, recId]
  | false =>
    obtain ⟨h1, h2⟩ := mainLoop_records env (load_posted_jobs env.dedupFile)
      (fetch_today_jobs env.today env.feedResp) 0 false env.dedupFile
    constructor
    · simp only [main, htok, Bool.true_eq_false, if_false, hjobs,
        Bool.false_eq_true]
      simpa [recId] using h1
    · simpa [main, htok, hjobs] using h2

/-- C7 witness: in the all-success scenario the recorded ids are exactly the
recomputed successful ids. -/
theorem c7_witness :
    (main envW5).2.filterMap recId =
      succFrom envW5 (load_posted_jobs envW5.dedupFile) 0
        (fetch_today_jobs envW5.today envW5.feedResp) :=
  (c7_record_iff_success envW5 rfl).1
